import Mathlib

/-!
Verification of the terminal typing-speed test (`Project 6/main.py`).

The development shallowly embeds the program:
* Python floats are modelled by rationals (ℚ); the arithmetic of the
  metrics functions is exact, so no rounding questions arise in the
  claims treated here.
* Strings manipulated character-by-character are modelled as `List Char`.
* The main loop of `run_typing_test` becomes a deterministic step
  function `tick` on a record `TestState` holding exactly the loop's
  local variables.  Each loop iteration consumes an `Input`: the wall
  clock readings taken during that iteration, the key code returned by
  `getch`, and the fresh target text that `generate_target_text` would
  return if a round completes in that iteration (randomness is modelled
  by quantifying over all possible outcomes).
* `random.sample` is modelled by quantifying over every possible
  outcome: any list of the requested length whose entries are drawn
  without replacement from the population, i.e. any `List.Subperm` of it.
-/

/-- The word bank of `load_text` (main.py lines 23-35). -/
def load_text : List String :=
  ["the", "be", "to", "of", "and", "a", "in", "that", "have", "I",
   "it", "for", "not", "on", "with", "he", "as", "you", "do", "at",
   "this", "but", "his", "by", "from", "they", "we", "say", "her", "she",
   "or", "an", "will", "my", "one", "all", "would", "there", "their", "what",
   "so", "up", "out", "if", "about", "who", "get", "which", "go", "me",
   "when", "make", "can", "like", "time", "no", "just", "him", "know", "take",
   "people", "into", "year", "your", "good", "some", "could", "them", "see", "other",
   "than", "then", "now", "look", "only", "come", "its", "over", "think", "also",
   "back", "after", "use", "two", "how", "our", "work", "first", "well", "way",
   "even", "new", "want", "because", "any", "these", "give", "day", "most", "us",
   "is", "are", "was", "were", "had", "has", "it's", "been", "being", "am"]

/-- `calculate_wpm` (main.py lines 85-101):
`elapsed = max(0.001, end - start)`, `words = typed / 5`,
`minutes = elapsed / 60`, returning `words / minutes` guarded by
`if minutes > 0 else 0`. -/
def calculate_wpm (start_time end_time : ℚ) (typed_chars : Nat) : ℚ :=
  let elapsed_time : ℚ := max (1 / 1000) (end_time - start_time)
  let words : ℚ := (typed_chars : ℚ) / 5
  let minutes : ℚ := elapsed_time / 60
  if 0 < minutes then words / minutes else 0

/-- The accuracy expression of `run_typing_test` (main.py lines 188 and 200):
`(total_correct_chars / total_chars) * 100 if total_chars > 0 else 0`. -/
def accuracy_of (total_correct_chars total_chars : Nat) : ℚ :=
  if 0 < total_chars then ((total_correct_chars : ℚ) / (total_chars : ℚ)) * 100 else 0

/-- `random.sample(population, k)` (used at main.py line 115) modelled by its
outcome: a length-`k` list of elements drawn from `population` without
replacement, in any order — that is, any permutation of a sublist.  The
precondition for `sample` not to raise `ValueError` is `k ≤ population.length`. -/
def sample_outcome (population : List String) (k : Nat) (ws : List String) : Prop :=
  ws.length = k ∧ ws.Subperm population

/-- `generate_target_text` (main.py lines 104-116), applied to the outcome of
`random.sample(word_list, min(word_count, len(word_list)))`:
joins the selected words with single spaces. -/
def generate_target_text (selected_words : List String) : String :=
  String.intercalate " " selected_words

/-- The local variables of `run_typing_test`'s main loop
(main.py lines 134-142), in declaration order. -/
structure TestState where
  target_text : List Char
  current_text : List Char
  wpm : ℚ
  start_time : ℚ
  total_correct_chars : Nat
  total_chars : Nat
  deriving DecidableEq, Repr

/-- The fresh state at the start of `run_typing_test`
(main.py lines 134-142): empty typed text, `wpm = 0.0`, zero counters. -/
def init_state (target : List Char) (t0 : ℚ) : TestState :=
  { target_text := target, current_text := [], wpm := 0, start_time := t0,
    total_correct_chars := 0, total_chars := 0 }

/-- `curses.KEY_BACKSPACE`. -/
def KEY_BACKSPACE : Nat := 263

/-- The key-handling block of the loop (main.py lines 165-175), for keys
other than ESC: backspace deletes the last character when there is one;
a printable ASCII code (32..126) is appended to `current_text`,
`total_chars` is incremented, and `total_correct_chars` is incremented
when the guarded comparison with the target succeeds; other keys are
ignored. -/
def handle_key (s : TestState) (key : Nat) : TestState :=
  if key = KEY_BACKSPACE ∨ key = 127 ∨ key = 8 then
    if s.current_text ≠ [] then
      { s with current_text := s.current_text.dropLast }
    else s
  else if 32 ≤ key ∧ key ≤ 126 then
    let c : Char := Char.ofNat key
    let ct : List Char := s.current_text ++ [c]
    let correct : Nat :=
      if ct.length ≤ s.target_text.length ∧ s.target_text[ct.length - 1]? = some c
      then s.total_correct_chars + 1
      else s.total_correct_chars
    { s with current_text := ct, total_chars := s.total_chars + 1,
             total_correct_chars := correct }
  else s

/-- The duration in milliseconds of the post-round pause
(`stdscr.timeout(1500)`, main.py line 181). -/
def roundPauseMs : Nat := 1500

/-- The completion check at the bottom of the loop (main.py lines 178-195):
when `len(current_text) >= len(target_text)`, a new target is installed,
the typed text is cleared, `start_time` is re-anchored and both counters
are zeroed.  The `wpm` variable is not reset.  `fresh` is the outcome of
`generate_target_text` at line 191 and `now2` the clock reading at line 193. -/
def check_complete (s : TestState) (fresh : List Char) (now2 : ℚ) : TestState :=
  if s.target_text.length ≤ s.current_text.length then
    { target_text := fresh, current_text := [], wpm := s.wpm, start_time := now2,
      total_correct_chars := 0, total_chars := 0 }
  else s

/-- The external inputs consumed during one loop iteration:
`now` is `time.time()` at line 150, `key` the code from `getch`,
`fresh` the target `generate_target_text` would produce at line 191,
`now2` the clock reading `time.time()` at line 193. -/
structure Input where
  now : ℚ
  key : Nat
  fresh : List Char
  now2 : ℚ
  deriving DecidableEq, Repr

/-- Result of one loop iteration: the `wpm` value passed to
`display_text` at line 154, the state at the next loop top, and whether
the `break` at line 164 fired. -/
structure TickOut where
  shown : ℚ
  next : TestState
  exited : Bool
  deriving DecidableEq, Repr

/-- One iteration of the main loop (main.py lines 147-195): recompute
`wpm` only when `current_text` is non-empty (lines 149-151), display,
read a key; ESC (27) breaks out of the loop; otherwise handle the key
and run the completion check. -/
def tick (s : TestState) (i : Input) : TickOut :=
  let w : ℚ :=
    if s.current_text ≠ [] then calculate_wpm s.start_time i.now s.current_text.length
    else s.wpm
  let s1 : TestState := { s with wpm := w }
  if i.key = 27 then
    { shown := w, next := s1, exited := true }
  else
    { shown := w, next := check_complete (handle_key s1 i.key) i.fresh i.now2,
      exited := false }

/-- Iterated main loop: fold `tick` over a list of per-iteration inputs. -/
def run (s : TestState) : List Input → TestState
  | [] => s
  | i :: is => run (tick s i).next is

/-- The final statistics computed after the loop exits
(main.py lines 198-202): WPM from `start_time`, the exit-time clock
reading and `total_chars`; accuracy from the counters. -/
def final_result (s : TestState) (end_time : ℚ) : ℚ × ℚ :=
  (calculate_wpm s.start_time end_time s.total_chars,
   accuracy_of s.total_correct_chars s.total_chars)

/-- The three ways `wrapper(main)` can finish, as seen by the top-level
handler at main.py lines 249-255. -/
inductive Outcome where
  | normal
  | keyboardInterrupt
  | failure (msg : String)
  deriving DecidableEq, Repr

/-- The `__main__` block (main.py lines 249-255) together with Python's
process semantics: a caught exception is printed and the interpreter
then exits normally, so every branch ends with exit status 0.  Returns
the printed line (if any) and the process exit code. -/
def main_entry : Outcome → Option String × Nat
  | Outcome.normal => (none, 0)
  | Outcome.keyboardInterrupt => (some "Typing test terminated.", 0)
  | Outcome.failure msg => (some ("An error occurred: " ++ msg), 0)

/-! ## Metrics claims -/

/-- C3: for every `startTime`, every `endTime ≥ startTime` and every
`typedChars ≥ 0`, `calculate_wpm` returns a (finite, since it is a
rational) value `≥ 0`, equal to `(typedChars / 5) / (elapsed / 60)`
with `elapsed` floored at one millisecond. -/
theorem calculate_wpm_spec (st et : ℚ) (n : Nat) (h : st ≤ et) :
    0 ≤ calculate_wpm st et n ∧
    calculate_wpm st et n = ((n : ℚ) / 5) / (max (1 / 1000) (et - st) / 60) := by
  have hm : (0 : ℚ) < max (1 / 1000) (et - st) / 60 := by
    have h1 : (0 : ℚ) < max (1 / 1000) (et - st) :=
      lt_of_lt_of_le (by norm_num) (le_max_left _ _)
    exact div_pos h1 (by norm_num)
  have he : calculate_wpm st et n = ((n : ℚ) / 5) / (max (1 / 1000) (et - st) / 60) := by
    simp only [calculate_wpm]
    rw [if_pos hm]
  refine ⟨?_, he⟩
  rw [he]
  exact div_nonneg (div_nonneg (Nat.cast_nonneg n) (by norm_num)) hm.le

/-- Witness for C3 at `startTime = 0`, `endTime = 60`, `typedChars = 300`. -/
theorem calculate_wpm_spec_witness :
    (0 : ℚ) ≤ 60 ∧
    (0 ≤ calculate_wpm 0 60 300 ∧
     calculate_wpm 0 60 300 = ((300 : ℚ) / 5) / (max (1 / 1000) ((60 : ℚ) - 0) / 60)) :=
  ⟨by norm_num, calculate_wpm_spec 0 60 300 (by norm_num)⟩

/-- C4: the accuracy computation returns `0` when `totalChars = 0` and
`100 * correctChars / totalChars` otherwise, and for every pair with
`correctChars ≤ totalChars` the result lies in `[0, 100]`. -/
theorem accuracy_of_spec (c t : Nat) (h : c ≤ t) :
    accuracy_of 0 0 = 0 ∧
    (t = 0 → accuracy_of c t = 0) ∧
    (0 < t → accuracy_of c t = 100 * (c : ℚ) / (t : ℚ)) ∧
    0 ≤ accuracy_of c t ∧ accuracy_of c t ≤ 100 := by
  by_cases ht : 0 < t
  · have htq : (0 : ℚ) < (t : ℚ) := by exact_mod_cast ht
    have hcq : (c : ℚ) ≤ (t : ℚ) := by exact_mod_cast h
    have hdiv : (c : ℚ) / (t : ℚ) ≤ 1 := (div_le_one htq).mpr hcq
    have he : accuracy_of c t = ((c : ℚ) / (t : ℚ)) * 100 := by
      simp only [accuracy_of]
      rw [if_pos ht]
    refine ⟨by simp [accuracy_of], fun h0 => absurd h0 (Nat.pos_iff_ne_zero.mp ht), ?_, ?_, ?_⟩
    · intro _
      rw [he]; ring
    · rw [he]
      exact mul_nonneg (div_nonneg (Nat.cast_nonneg c) (Nat.cast_nonneg t)) (by norm_num)
    · rw [he]
      calc ((c : ℚ) / (t : ℚ)) * 100 ≤ 1 * 100 :=
            mul_le_mul_of_nonneg_right hdiv (by norm_num)
        _ = 100 := by norm_num
  · have ht0 : t = 0 := Nat.eq_zero_of_not_pos ht
    refine ⟨by simp [accuracy_of], fun _ => by simp [accuracy_of, ht0], ?_, ?_, ?_⟩
    · intro hc; exact absurd hc ht
    · simp [accuracy_of, ht0]
    · simp [accuracy_of, ht0]

/-- Witness for C4 at `correctChars = 2`, `totalChars = 3`. -/
theorem accuracy_of_spec_witness :
    2 ≤ 3 ∧
    (accuracy_of 0 0 = 0 ∧
     (3 = 0 → accuracy_of 2 3 = 0) ∧
     (0 < 3 → accuracy_of 2 3 = 100 * (2 : ℚ) / (3 : ℚ)) ∧
     0 ≤ accuracy_of 2 3 ∧ accuracy_of 2 3 ≤ 100) :=
  ⟨by norm_num, accuracy_of_spec 2 3 (by norm_num)⟩

/-! ## Top-level exit behaviour -/

/-- C10 counterexample: an unexpected failure escaping the main loop is
printed as a one-line message but the process exit code is `0`, not
non-zero as claimed. -/
theorem failure_exit_code_zero :
    (main_entry (Outcome.failure "boom")).1 = some "An error occurred: boom" ∧
    (main_entry (Outcome.failure "boom")).2 = 0 :=
  ⟨rfl, rfl⟩

/-- C10 amended: on an unexpected failure escaping the main loop the
program prints a one-line message and exits with code `0` (the
exception is caught, printed, and the interpreter then terminates
normally); normal termination and keyboard interrupt also exit `0`. -/
theorem main_entry_exit_behavior (msg : String) :
    main_entry (Outcome.failure msg) = (some ("An error occurred: " ++ msg), 0) ∧
    main_entry Outcome.normal = (none, 0) ∧
    main_entry Outcome.keyboardInterrupt = (some "Typing test terminated.", 0) :=
  ⟨rfl, rfl, rfl⟩

/-! ## Live WPM display -/

/-- C7 counterexample: on the iteration after a completed round,
`current_text` is empty but the WPM passed to the renderer is the stale
value from the finished round (here `1/10`), not
`calculate_wpm startTime now 0 = 0`.  The run types `'a'` then `'b'`
against target `"ab"`, completing the round, and then ticks once more. -/
theorem live_wpm_not_recomputed_when_empty :
    (run (init_state ['a', 'b'] 0)
        [⟨60, 97, ['c', 'd'], 60⟩, ⟨120, 98, ['c', 'd'], 120⟩]).current_text = [] ∧
    (tick (run (init_state ['a', 'b'] 0)
        [⟨60, 97, ['c', 'd'], 60⟩, ⟨120, 98, ['c', 'd'], 120⟩]) ⟨180, 48, ['e'], 180⟩).shown ≠
      calculate_wpm
        (run (init_state ['a', 'b'] 0)
            [⟨60, 97, ['c', 'd'], 60⟩, ⟨120, 98, ['c', 'd'], 120⟩]).start_time 180
        (run (init_state ['a', 'b'] 0)
            [⟨60, 97, ['c', 'd'], 60⟩, ⟨120, 98, ['c', 'd'], 120⟩]).current_text.length := by
  norm_num [run, tick, handle_key, check_complete, init_state, calculate_wpm,
    KEY_BACKSPACE, List.get?]

/-- C7 amended: the WPM passed to the renderer is recomputed from
`startTime`, the current wall-clock reading and `len(typed)` only on
iterations where `typed` is non-empty; when `typed` is empty the
previously stored value is shown unchanged (`0` at session start, but
possibly the finished round's stale value right after a round reset). -/
theorem live_wpm_recompute_rule (s : TestState) (i : Input) :
    (tick s i).shown =
      if s.current_text = [] then s.wpm
      else calculate_wpm s.start_time i.now s.current_text.length := by
  by_cases hk : i.key = 27 <;> by_cases h : s.current_text = [] <;>
    simp [tick, hk, h]

/-! ## Keystroke handling -/

/-- C2: a printable character `c` (code 32..126) is appended to `typed`
and increments `totalChars` by one; `correctChars` is incremented if and
only if the new length of `typed` is at most the target's length and `c`
equals the target character at the position just filled; in particular a
character typed past the end of the target never increments
`correctChars`.  Target and timer are untouched. -/
theorem printable_key_effect (s : TestState) (key : Nat)
    (h32 : 32 ≤ key) (h126 : key ≤ 126) :
    (handle_key s key).current_text = s.current_text ++ [Char.ofNat key] ∧
    (handle_key s key).total_chars = s.total_chars + 1 ∧
    ((handle_key s key).total_correct_chars = s.total_correct_chars + 1 ↔
      (s.current_text.length + 1 ≤ s.target_text.length ∧
       s.target_text[s.current_text.length]? = some (Char.ofNat key))) ∧
    (s.target_text.length < s.current_text.length + 1 →
      (handle_key s key).total_correct_chars = s.total_correct_chars) ∧
    (handle_key s key).target_text = s.target_text ∧
    (handle_key s key).start_time = s.start_time := by
  have hnb : ¬(key = KEY_BACKSPACE ∨ key = 127 ∨ key = 8) := by
    simp only [KEY_BACKSPACE]
    omega
  have hpr : 32 ≤ key ∧ key ≤ 126 := ⟨h32, h126⟩
  have hkey : handle_key s key =
      { s with current_text := s.current_text ++ [Char.ofNat key],
               total_chars := s.total_chars + 1,
               total_correct_chars :=
                 if s.current_text.length + 1 ≤ s.target_text.length ∧
                    s.target_text[s.current_text.length]? = some (Char.ofNat key)
                 then s.total_correct_chars + 1
                 else s.total_correct_chars } := by
    simp only [handle_key, if_neg hnb, if_pos hpr, List.length_append,
      List.length_singleton, Nat.add_sub_cancel]
  rw [hkey]
  refine ⟨rfl, rfl, ?_, ?_, rfl, rfl⟩
  · by_cases hc : s.current_text.length + 1 ≤ s.target_text.length ∧
        s.target_text[s.current_text.length]? = some (Char.ofNat key)
    · simp [hc]
    · simp only [if_neg hc]
      constructor
      · intro habs
        exact absurd habs (Nat.ne_of_lt (Nat.lt_succ_self _))
      · intro habs
        exact absurd habs hc
  · intro hlong
    have hfail : ¬(s.current_text.length + 1 ≤ s.target_text.length ∧
        s.target_text[s.current_text.length]? = some (Char.ofNat key)) := by
      intro ⟨hle, _⟩
      omega
    simp [hfail]

/-- Witness for C2: typing `'a'` (code 97) with target `"ab"` and one
character `'x'` already typed. -/
theorem printable_key_effect_witness :
    32 ≤ 97 ∧ 97 ≤ 126 ∧
    ((handle_key ⟨['a', 'b'], ['x'], 0, 0, 0, 1⟩ 97).current_text = ['x'] ++ [Char.ofNat 97] ∧
     (handle_key ⟨['a', 'b'], ['x'], 0, 0, 0, 1⟩ 97).total_chars = 1 + 1 ∧
     ((handle_key ⟨['a', 'b'], ['x'], 0, 0, 0, 1⟩ 97).total_correct_chars = 0 + 1 ↔
       ((['x'] : List Char).length + 1 ≤ (['a', 'b'] : List Char).length ∧
        (['a', 'b'] : List Char)[(['x'] : List Char).length]? = some (Char.ofNat 97))) ∧
     ((['a', 'b'] : List Char).length < (['x'] : List Char).length + 1 →
       (handle_key ⟨['a', 'b'], ['x'], 0, 0, 0, 1⟩ 97).total_correct_chars = 0) ∧
     (handle_key ⟨['a', 'b'], ['x'], 0, 0, 0, 1⟩ 97).target_text = ['a', 'b'] ∧
     (handle_key ⟨['a', 'b'], ['x'], 0, 0, 0, 1⟩ 97).start_time = 0) :=
  ⟨by norm_num, by norm_num,
   printable_key_effect ⟨['a', 'b'], ['x'], 0, 0, 0, 1⟩ 97 (by norm_num) (by norm_num)⟩

/-! ## Round generation -/

/-- C5: with the data-model invariant that the word bank has distinct
entries, every possible outcome of
`random.sample(word_list, min(word_count, len(word_list)))` has exactly
`min(wordCount, |wordBank|)` words, all distinct and drawn from the
bank; the size passed to `sample` never exceeds the population size, so
`sample` cannot raise even when `wordCount > |wordBank|`; the returned
string joins the words with single spaces. -/
theorem generate_target_text_spec (bank : List String) (count : Nat) (ws : List String)
    (hnd : bank.Nodup) (hs : sample_outcome bank (min count bank.length) ws) :
    min count bank.length ≤ bank.length ∧
    ws.length = min count bank.length ∧
    ws.Nodup ∧
    (∀ w ∈ ws, w ∈ bank) ∧
    generate_target_text ws = String.intercalate " " ws := by
  obtain ⟨hlen, hsub⟩ := hs
  refine ⟨min_le_right _ _, hlen, ?_, fun w hw => hsub.subset hw, rfl⟩
  obtain ⟨l, hp, hsl⟩ := hsub
  exact hp.nodup (hnd.sublist hsl)

/-- Witness for C5: bank `["a", "b", "c"]`, requested count `2`,
outcome `["b", "a"]`. -/
theorem generate_target_text_spec_witness :
    (["a", "b", "c"] : List String).Nodup ∧
    sample_outcome ["a", "b", "c"] (min 2 (["a", "b", "c"] : List String).length) ["b", "a"] ∧
    (min 2 (["a", "b", "c"] : List String).length ≤ (["a", "b", "c"] : List String).length ∧
     (["b", "a"] : List String).length = min 2 (["a", "b", "c"] : List String).length ∧
     (["b", "a"] : List String).Nodup ∧
     (∀ w ∈ (["b", "a"] : List String), w ∈ (["a", "b", "c"] : List String)) ∧
     generate_target_text ["b", "a"] = String.intercalate " " ["b", "a"]) :=
  ⟨by decide, ⟨by decide, by decide⟩,
   generate_target_text_spec ["a", "b", "c"] 2 ["b", "a"] (by decide) ⟨by decide, by decide⟩⟩

/-! ## Loop invariants -/

/-- The key-handling block preserves `correctChars ≤ totalChars`. -/
theorem handle_key_counter (s : TestState) (key : Nat)
    (h : s.total_correct_chars ≤ s.total_chars) :
    (handle_key s key).total_correct_chars ≤ (handle_key s key).total_chars := by
  simp only [handle_key]
  split_ifs <;> (try simp) <;> omega

/-- The completion check preserves `correctChars ≤ totalChars`. -/
theorem check_complete_counter (s : TestState) (fresh : List Char) (now2 : ℚ)
    (h : s.total_correct_chars ≤ s.total_chars) :
    (check_complete s fresh now2).total_correct_chars ≤
      (check_complete s fresh now2).total_chars := by
  unfold check_complete
  split
  · simp
  · exact h

/-- One loop iteration preserves `correctChars ≤ totalChars`. -/
theorem tick_counter (s : TestState) (i : Input)
    (h : s.total_correct_chars ≤ s.total_chars) :
    (tick s i).next.total_correct_chars ≤ (tick s i).next.total_chars := by
  by_cases hk : i.key = 27
  · simp only [tick]
    rw [if_pos hk]
    simpa using h
  · simp only [tick]
    rw [if_neg hk]
    exact check_complete_counter _ _ _ (handle_key_counter _ _ (by simpa using h))

/-- Running any list of inputs preserves `correctChars ≤ totalChars`. -/
theorem run_counter (inputs : List Input) :
    ∀ s : TestState, s.total_correct_chars ≤ s.total_chars →
      (run s inputs).total_correct_chars ≤ (run s inputs).total_chars := by
  induction inputs with
  | nil => exact fun s h => h
  | cons i is ih => exact fun s h => ih _ (tick_counter s i h)

/-- C1: after any sequence of input events applied to a freshly started
round, the session counters satisfy `correctChars ≤ totalChars`, and the
typed text's length is (trivially, being a natural number) `≥ 0`. -/
theorem run_counters_invariant (target : List Char) (t0 : ℚ) (inputs : List Input) :
    (run (init_state target t0) inputs).total_correct_chars ≤
      (run (init_state target t0) inputs).total_chars ∧
    0 ≤ (run (init_state target t0) inputs).current_text.length :=
  ⟨run_counter inputs (init_state target t0) (Nat.le_refl 0), Nat.zero_le _⟩

/-- After the completion check, the typed text is strictly shorter than
the (possibly freshly installed, non-empty) target. -/
theorem check_complete_len (s : TestState) (fresh : List Char) (now2 : ℚ)
    (hf : fresh ≠ []) :
    (check_complete s fresh now2).current_text.length <
      (check_complete s fresh now2).target_text.length := by
  unfold check_complete
  split
  · simpa using List.length_pos.mpr hf
  · omega

/-- A non-ESC iteration whose fresh replacement target is non-empty
leaves the typed text strictly shorter than the target; an ESC iteration
preserves that bound when it already held. -/
theorem tick_len (s : TestState) (i : Input) (hf : i.fresh ≠ [])
    (h : s.current_text.length < s.target_text.length) :
    (tick s i).next.current_text.length < (tick s i).next.target_text.length := by
  by_cases hk : i.key = 27
  · simp only [tick]
    rw [if_pos hk]
    simpa using h
  · simp only [tick]
    rw [if_neg hk]
    exact check_complete_len _ _ _ hf

/-- Running inputs with non-empty fresh targets keeps the typed text
strictly shorter than the target. -/
theorem run_len (inputs : List Input) :
    ∀ s : TestState, (∀ i ∈ inputs, i.fresh ≠ []) →
      s.current_text.length < s.target_text.length →
      (run s inputs).current_text.length < (run s inputs).target_text.length := by
  induction inputs with
  | nil => exact fun s _ h => h
  | cons i is ih =>
      intro s hf h
      exact ih _ (fun j hj => hf j (List.mem_cons_of_mem i hj))
        (tick_len s i (hf i (List.mem_cons_self i is)) h)

/-- C9: starting from a non-empty target, as long as every freshly
generated target is non-empty (always true of `generate_target_text` on
the word bank), the typed text's length never exceeds — in fact stays
strictly below — the target's length at every loop top: the completion
check fires in the very iteration in which `typed` reaches the target's
length and resets `typed` to empty. -/
theorem typed_never_exceeds_target (target : List Char) (t0 : ℚ) (inputs : List Input)
    (ht : target ≠ []) (hf : ∀ i ∈ inputs, i.fresh ≠ []) :
    (run (init_state target t0) inputs).current_text.length ≤
      (run (init_state target t0) inputs).target_text.length :=
  le_of_lt (run_len inputs (init_state target t0) hf
    (by simpa [init_state] using List.length_pos.mpr ht))

/-- Witness for C9: target `"a"`, one iteration typing `'a'`
(which completes the round and installs the fresh target `"b"`). -/
theorem typed_never_exceeds_target_witness :
    (['a'] : List Char) ≠ [] ∧
    (∀ i ∈ ([⟨0, 97, ['b'], 1⟩] : List Input), i.fresh ≠ []) ∧
    (run (init_state ['a'] 0) [⟨0, 97, ['b'], 1⟩]).current_text.length ≤
      (run (init_state ['a'] 0) [⟨0, 97, ['b'], 1⟩]).target_text.length :=
  ⟨by simp, by simp,
   typed_never_exceeds_target ['a'] 0 [⟨0, 97, ['b'], 1⟩] (by simp) (by simp)⟩

/-! ## Delete-last-character handling -/

/-- The `wpm` value passed to the renderer during an iteration. -/
theorem tick_shown_eq (s : TestState) (i : Input) :
    (tick s i).shown =
      if s.current_text ≠ [] then calculate_wpm s.start_time i.now s.current_text.length
      else s.wpm := by
  by_cases hk : i.key = 27 <;> simp [tick, hk]

/-- For non-ESC keys, the next state is the completion check applied to
the key-handled state (whose `wpm` was just refreshed). -/
theorem tick_next_of_ne (s : TestState) (i : Input) (hk : i.key ≠ 27) :
    (tick s i).next =
      check_complete (handle_key { s with wpm := (tick s i).shown } i.key)
        i.fresh i.now2 := by
  simp only [tick]
  rw [if_neg hk]

/-- C6: a delete-last-character key (KEY_BACKSPACE, 127 or 8) received
with `typed` non-empty removes exactly the last character of `typed` and
leaves `correctChars`, `totalChars`, the target and the timer unchanged;
received with `typed` empty it leaves the entire loop state unchanged.
The hypotheses `hle`/`ht` say the state is a reachable one: the typed
text never exceeds the (non-empty) target. -/
theorem backspace_effect (s : TestState) (i : Input)
    (hk : i.key = KEY_BACKSPACE ∨ i.key = 127 ∨ i.key = 8)
    (hle : s.current_text.length ≤ s.target_text.length)
    (ht : s.target_text ≠ []) :
    (tick s i).next.current_text = s.current_text.dropLast ∧
    (s.current_text ≠ [] →
      (tick s i).next.current_text.length + 1 = s.current_text.length) ∧
    (tick s i).next.total_chars = s.total_chars ∧
    (tick s i).next.total_correct_chars = s.total_correct_chars ∧
    (tick s i).next.target_text = s.target_text ∧
    (tick s i).next.start_time = s.start_time ∧
    (s.current_text = [] → (tick s i).next = s) := by
  have hk27 : i.key ≠ 27 := by
    rcases hk with h | h | h <;> rw [h] <;> decide
  have hnext := tick_next_of_ne s i hk27
  by_cases hempty : s.current_text = []
  · have hw : ({ s with wpm := (tick s i).shown } : TestState) = s := by
      rw [tick_shown_eq, if_neg (not_not_intro hempty)]
    have hhk : handle_key s i.key = s := by
      simp only [handle_key]
      rw [if_pos hk, if_neg (not_not_intro hempty)]
    have hcc : check_complete s i.fresh i.now2 = s := by
      unfold check_complete
      rw [if_neg]
      have h0 : 0 < s.target_text.length := List.length_pos.mpr ht
      rw [hempty]
      simp only [List.length_nil]
      omega
    rw [hnext, hw, hhk, hcc]
    refine ⟨?_, fun hne => absurd hempty hne, rfl, rfl, rfl, rfl, fun _ => rfl⟩
    rw [hempty]
    rfl
  · have hhk : handle_key { s with wpm := (tick s i).shown } i.key =
        { s with wpm := (tick s i).shown,
                 current_text := s.current_text.dropLast } := by
      simp only [handle_key]
      rw [if_pos hk, if_pos]
      exact hempty
    have h1 : 0 < s.current_text.length := List.length_pos.mpr hempty
    have h2 := List.length_dropLast s.current_text
    have hlt : s.current_text.dropLast.length < s.target_text.length := by omega
    have hcc : check_complete
        { s with wpm := (tick s i).shown,
                 current_text := s.current_text.dropLast } i.fresh i.now2 =
        { s with wpm := (tick s i).shown,
                 current_text := s.current_text.dropLast } := by
      unfold check_complete
      rw [if_neg]
      simpa using not_le.mpr hlt
    rw [hnext, hhk, hcc]
    refine ⟨rfl, ?_, rfl, rfl, rfl, rfl, fun habs => absurd habs hempty⟩
    intro _
    show s.current_text.dropLast.length + 1 = s.current_text.length
    omega

/-- Witness for C6: backspace (code 8) on state with target `"ab"` and
typed `"a"`. -/
theorem backspace_effect_witness :
    ((8 : Nat) = KEY_BACKSPACE ∨ (8 : Nat) = 127 ∨ (8 : Nat) = 8) ∧
    (['a'] : List Char).length ≤ (['a', 'b'] : List Char).length ∧
    (['a', 'b'] : List Char) ≠ [] ∧
    ((tick ⟨['a', 'b'], ['a'], 2, 1, 1, 1⟩ ⟨6, 8, ['c'], 7⟩).next.current_text =
        (['a'] : List Char).dropLast ∧
     ((['a'] : List Char) ≠ [] →
       (tick ⟨['a', 'b'], ['a'], 2, 1, 1, 1⟩ ⟨6, 8, ['c'], 7⟩).next.current_text.length + 1 =
         (['a'] : List Char).length) ∧
     (tick ⟨['a', 'b'], ['a'], 2, 1, 1, 1⟩ ⟨6, 8, ['c'], 7⟩).next.total_chars = 1 ∧
     (tick ⟨['a', 'b'], ['a'], 2, 1, 1, 1⟩ ⟨6, 8, ['c'], 7⟩).next.total_correct_chars = 1 ∧
     (tick ⟨['a', 'b'], ['a'], 2, 1, 1, 1⟩ ⟨6, 8, ['c'], 7⟩).next.target_text = ['a', 'b'] ∧
     (tick ⟨['a', 'b'], ['a'], 2, 1, 1, 1⟩ ⟨6, 8, ['c'], 7⟩).next.start_time = 1 ∧
     ((['a'] : List Char) = [] →
       (tick ⟨['a', 'b'], ['a'], 2, 1, 1, 1⟩ ⟨6, 8, ['c'], 7⟩).next =
         ⟨['a', 'b'], ['a'], 2, 1, 1, 1⟩)) :=
  ⟨by decide, by decide, by decide,
   backspace_effect ⟨['a', 'b'], ['a'], 2, 1, 1, 1⟩ ⟨6, 8, ['c'], 7⟩
     (by decide) (by decide) (by decide)⟩

/-! ## Round completion -/

/-- The key-handling block never changes the target. -/
theorem handle_key_target (s : TestState) (key : Nat) :
    (handle_key s key).target_text = s.target_text := by
  simp only [handle_key]
  split_ifs <;> rfl

/-- The key-handling block ignores the `wpm` variable. -/
theorem handle_key_wpm (s : TestState) (w : ℚ) (key : Nat) :
    handle_key { s with wpm := w } key = { handle_key s key with wpm := w } := by
  simp only [handle_key]
  split_ifs <;> rfl

/-- The completion check ignores the `wpm` variable. -/
theorem check_complete_wpm (s : TestState) (w : ℚ) (fresh : List Char) (now2 : ℚ) :
    check_complete { s with wpm := w } fresh now2 =
      { check_complete s fresh now2 with wpm := w } := by
  simp only [check_complete]
  split_ifs <;> rfl

/-- A loop iteration started with a different `wpm` value reaches the
same next state up to the `wpm` field. -/
theorem tick_next_wpm (s : TestState) (i : Input) (w : ℚ) :
    ∃ w2 : ℚ, (tick { s with wpm := w } i).next = { (tick s i).next with wpm := w2 } := by
  by_cases hne : s.current_text = []
  · refine ⟨w, ?_⟩
    by_cases hk : i.key = 27
    · simp [tick, hk, hne]
    · rw [tick_next_of_ne { s with wpm := w } i hk, tick_next_of_ne s i hk]
      have hsh1 : (tick { s with wpm := w } i).shown = w := by
        rw [tick_shown_eq]
        simp [hne]
      have hsh2 : (tick s i).shown = s.wpm := by
        rw [tick_shown_eq]
        simp [hne]
      rw [hsh1, hsh2]
      show check_complete (handle_key { s with wpm := w } i.key) i.fresh i.now2 =
        { check_complete (handle_key s i.key) i.fresh i.now2 with wpm := w }
      rw [handle_key_wpm, check_complete_wpm]
  · have heq : (tick { s with wpm := w } i).next = (tick s i).next := by
      by_cases hk : i.key = 27 <;> simp [tick, hk, hne]
    exact ⟨(tick s i).next.wpm, by rw [heq]⟩

/-- Running any inputs from states differing only in `wpm` yields final
states differing only in `wpm`. -/
theorem run_wpm (es : List Input) : ∀ (s : TestState) (w : ℚ),
    ∃ w2 : ℚ, run { s with wpm := w } es = { run s es with wpm := w2 } := by
  induction es with
  | nil => exact fun s w => ⟨w, rfl⟩
  | cons i is ih =>
      intro s w
      obtain ⟨w1, h1⟩ := tick_next_wpm s i w
      obtain ⟨w2, h2⟩ := ih (tick s i).next w1
      refine ⟨w2, ?_⟩
      simp only [run]
      rw [h1, h2]

/-- The final statistics do not depend on the `wpm` display variable. -/
theorem final_result_wpm (s : TestState) (w t : ℚ) :
    final_result { s with wpm := w } t = final_result s t := rfl

/-- C8: when the key just handled brings `typed` up to (or beyond) the
target's length, the iteration pauses for `roundPauseMs = 1500`
milliseconds (or until a key) and then resets the round: the next state
carries the freshly generated target, empty typed text, zeroed counters
and the re-anchored `startTime` (only the `wpm` display variable
survives).  Consequently the final result reported at termination after
such a completion equals the final result of a session freshly started
on the new round: completed prior rounds contribute nothing. -/
theorem round_complete_resets (s : TestState) (i : Input) (rest : List Input) (endT : ℚ)
    (hk : i.key ≠ 27)
    (hc : s.target_text.length ≤ (handle_key s i.key).current_text.length) :
    roundPauseMs = 1500 ∧
    (tick s i).next = { target_text := i.fresh, current_text := [],
                        wpm := (tick s i).shown, start_time := i.now2,
                        total_correct_chars := 0, total_chars := 0 } ∧
    final_result (run s (i :: rest)) endT =
      final_result (run (init_state i.fresh i.now2) rest) endT := by
  have hfire : check_complete (handle_key s i.key) i.fresh i.now2 =
      { target_text := i.fresh, current_text := [], wpm := (handle_key s i.key).wpm,
        start_time := i.now2, total_correct_chars := 0, total_chars := 0 } := by
    unfold check_complete
    rw [if_pos]
    rw [handle_key_target]
    exact hc
  have hnext : (tick s i).next =
      { target_text := i.fresh, current_text := [], wpm := (tick s i).shown,
        start_time := i.now2, total_correct_chars := 0, total_chars := 0 } := by
    rw [tick_next_of_ne s i hk, handle_key_wpm, check_complete_wpm, hfire]
  refine ⟨rfl, hnext, ?_⟩
  have hstep : run s (i :: rest) = run (tick s i).next rest := rfl
  rw [hstep, hnext]
  have hinit :
      ({ target_text := i.fresh, current_text := [], wpm := (tick s i).shown,
         start_time := i.now2, total_correct_chars := 0, total_chars := 0 } : TestState) =
      { init_state i.fresh i.now2 with wpm := (tick s i).shown } := rfl
  rw [hinit]
  obtain ⟨w2, hw2⟩ := run_wpm rest (init_state i.fresh i.now2) (tick s i).shown
  rw [hw2, final_result_wpm]

/-- Witness for C8: target `"a"`, typing `'a'` completes the round and
installs the fresh target `"bc"` with the clock re-anchored at `4`. -/
theorem round_complete_resets_witness :
    ((97 : Nat) ≠ 27) ∧
    ((init_state ['a'] 0).target_text.length ≤
      (handle_key (init_state ['a'] 0) 97).current_text.length) ∧
    (roundPauseMs = 1500 ∧
     (tick (init_state ['a'] 0) ⟨3, 97, ['b', 'c'], 4⟩).next =
       { target_text := ['b', 'c'], current_text := [],
         wpm := (tick (init_state ['a'] 0) ⟨3, 97, ['b', 'c'], 4⟩).shown,
         start_time := 4, total_correct_chars := 0, total_chars := 0 } ∧
     final_result (run (init_state ['a'] 0) (⟨3, 97, ['b', 'c'], 4⟩ :: [])) 9 =
       final_result (run (init_state ['b', 'c'] 4) []) 9) :=
  ⟨by decide, by decide,
   round_complete_resets (init_state ['a'] 0) ⟨3, 97, ['b', 'c'], 4⟩ [] 9
     (by decide) (by decide)⟩
